import Mathlib

/-!
# Verification of the metadata-extraction API route

Shallow embedding of `src/app/api/metadata/route.ts` (the `POST` handler of
the metatag-extractor service) together with the external capabilities it
invokes: the WHATWG `URL` constructor (used by `isValidUrl` and for
favicon/feed href resolution), the cheerio document queries (modelled as a
list of elements in document order with attribute lookup), and the
metascraper rule-based extractor (modelled as an abstract record of optional
canonical field values, since the rule chains live in the external
`metascraper-*` packages, not in this repository).

Machine strings are Lean `String` (a list of characters in this toolchain);
all parsing is done on `List Char` so that every definition evaluates by
kernel reduction.
-/

namespace MetaTag

/-! ## WHATWG URL model

Modelled external capability: the `new URL(input, base)` constructor of the
WHATWG URL standard, as used by the route for validation and for resolving
relative favicon/feed hrefs against the final fetched URL.  The model covers
scheme parsing, the special-scheme host requirement, authority extraction
(userinfo stripped at the last `@`), path/query/fragment splitting,
dot-segment removal and relative-reference resolution.  Simplifications
(documented, none touched by the concrete inputs used below): no
percent-encoding, no IDNA host normalization, no port elision, `file:` hosts
not parsed, tab/newline stripping omitted; a host is only checked not to
contain a space. -/

/-- Characters allowed in a URL scheme after the leading ASCII letter. -/
def schemeChar (c : Char) : Bool :=
  c.isAlphanum || c = '+' || c = '-' || c = '.'

/-- Split a character list at the first colon: `some (before, after)`. -/
def splitColon : List Char → Option (List Char × List Char)
  | [] => none
  | c :: rest =>
    if c = ':' then some ([], rest)
    else
      match splitColon rest with
      | some (b, a) => some (c :: b, a)
      | none => none

/-- Does `s` start with the characters `p`?  Models JS `String#startsWith`. -/
def listStarts : List Char → List Char → Bool
  | _, [] => true
  | [], _ :: _ => false
  | c :: cs, p :: ps => if c = p then listStarts cs ps else false

/-- JS `s.startsWith(p)` on Lean strings. -/
def strStarts (s p : String) : Bool := listStarts s.toList p.toList

/-- Parse a leading `scheme:`; returns the ASCII-lowercased scheme and the
remainder after the colon. -/
def parseScheme (s : List Char) : Option (List Char × List Char) :=
  match splitColon s with
  | some (b, a) =>
    match b with
    | [] => none
    | c :: cs =>
      if c.isAlpha && cs.all schemeChar then
        some ((c :: cs).map Char.toLower, a)
      else none
  | none => none

/-- The WHATWG special schemes. -/
def specialSchemes : List String := ["http", "https", "ws", "wss", "ftp", "file"]

def isSpecial (scheme : String) : Bool := specialSchemes.contains scheme

/-- Split an authority-and-after list at the first `/`, `?` or `#`:
returns `(authority, remainder-including-delimiter)`. -/
def splitAuthority : List Char → List Char × List Char
  | [] => ([], [])
  | c :: rest =>
    if c = '/' ∨ c = '?' ∨ c = '#' then ([], c :: rest)
    else
      let p := splitAuthority rest
      (c :: p.1, p.2)

/-- The host part of an authority: the characters after the last `@`
(userinfo is dropped). -/
def hostOfAuthority (auth : List Char) : List Char :=
  if auth.contains '@' then (auth.reverse.takeWhile (fun c => c ≠ '@')).reverse
  else auth

/-- Simplified host well-formedness: no spaces. -/
def hostOk (h : List Char) : Bool := h.all (fun c => c ≠ ' ')

/-- Split at the first `#`: `(before, optional fragment)`. -/
def splitFrag : List Char → List Char × Option (List Char)
  | [] => ([], none)
  | c :: rest =>
    if c = '#' then ([], some rest)
    else
      let p := splitFrag rest
      (c :: p.1, p.2)

/-- Split at the first `?`: `(before, optional query)`. -/
def splitQuery : List Char → List Char × Option (List Char)
  | [] => ([], none)
  | c :: rest =>
    if c = '?' then ([], some rest)
    else
      let p := splitQuery rest
      (c :: p.1, p.2)

/-- Split a character list into path segments at `/`. -/
def splitSegs : List Char → List (List Char)
  | [] => [[]]
  | c :: rest =>
    let r := splitSegs rest
    if c = '/' then [] :: r
    else
      match r with
      | s :: t => (c :: s) :: t
      | [] => [[c]]

/-- Join path segments with `/`. -/
def joinSegs : List (List Char) → List Char
  | [] => []
  | [s] => s
  | s :: rest => s ++ '/' :: joinSegs rest

/-- Dot-segment removal over a segment list (RFC 3986 §5.2.4 style):
`.` is dropped, `..` pops the previous segment, a trailing `.`/`..`
leaves a trailing empty segment (trailing slash). -/
def normSegsAux (acc : List (List Char)) : List (List Char) → List (List Char)
  | [] => acc.reverse
  | s :: rest =>
    if s = ['.'] then
      if rest.isEmpty then acc.reverse ++ [[]] else normSegsAux acc rest
    else if s = ['.', '.'] then
      if rest.isEmpty then acc.tail.reverse ++ [[]] else normSegsAux acc.tail rest
    else normSegsAux (s :: acc) rest

/-- Normalize a (host-relative) path: ensure a leading `/` and remove
dot segments. -/
def normalizePath (p : List Char) : List Char :=
  let q := match p with
    | '/' :: rest => rest
    | other => other
  '/' :: joinSegs (normSegsAux [] (splitSegs q))

/-- A parsed URL record.  `hasHost` distinguishes URLs with an authority
component (`scheme://host/path`) from opaque-path URLs (`mailto:foo`). -/
structure UrlRec where
  scheme : String
  hasHost : Bool
  host : String
  path : String
  query : Option String
  frag : Option String
deriving DecidableEq

/-- The directory part of a path: everything up to and including the last
`/`, or empty if the path has no `/`. -/
def dirOf (p : List Char) : List Char :=
  if p.contains '/' then (p.reverse.dropWhile (fun c => c ≠ '/')).reverse else []

/-- Parse the authority-and-path tail of a special-scheme URL
(`http`, `https`, `ws`, `wss`, `ftp`): leading slashes are skipped as in the
WHATWG "special authority ignore slashes" state, and the host must be
nonempty. -/
def parseSpecialAuthority (scheme : String) (rest : List Char) : Option UrlRec :=
  let l := rest.dropWhile (fun c => c = '/' ∨ c = '\\')
  let (auth, after) := splitAuthority l
  let host := hostOfAuthority auth
  if host.isEmpty ∨ ¬ hostOk host then none
  else
    let (pathC, frag) := splitFrag after
    let (pathC, query) := splitQuery pathC
    some ⟨scheme, true, String.mk (host.map Char.toLower),
      String.mk (normalizePath pathC), query.map String.mk, frag.map String.mk⟩

/-- Parse a `file:` URL tail (simplified: empty host, remainder as path). -/
def parseFile (rest : List Char) : Option UrlRec :=
  let l := rest.dropWhile (fun c => c = '/' ∨ c = '\\')
  let (pathC, frag) := splitFrag l
  let (pathC, query) := splitQuery pathC
  some ⟨"file", true, "", String.mk (normalizePath pathC),
    query.map String.mk, frag.map String.mk⟩

/-- Resolve a relative reference `input` against a parsed base URL. -/
def parseRelative (input : List Char) (b : UrlRec) : Option UrlRec :=
  if ¬ b.hasHost then
    match input with
    | [] => some { b with frag := none }
    | '#' :: f => some { b with frag := some (String.mk f) }
    | _ => none
  else if listStarts input ['/', '/'] then
    let (auth, after) := splitAuthority (input.drop 2)
    let host := hostOfAuthority auth
    if ¬ hostOk host then none
    else if isSpecial b.scheme ∧ host.isEmpty then none
    else
      let (pathC, frag) := splitFrag after
      let (pathC, query) := splitQuery pathC
      let path := if isSpecial b.scheme then normalizePath pathC else pathC
      some ⟨b.scheme, true,
        String.mk (if isSpecial b.scheme then host.map Char.toLower else host),
        String.mk path, query.map String.mk, frag.map String.mk⟩
  else
    match input with
    | [] => some { b with frag := none }
    | '#' :: f => some { b with frag := some (String.mk f) }
    | '?' :: q =>
      let (qC, frag) := splitFrag q
      some { b with
        query := some (String.mk qC),
        frag := frag.map String.mk }
    | _ =>
      let (pathC, frag) := splitFrag input
      let (pathC, query) := splitQuery pathC
      let merged :=
        match pathC with
        | '/' :: _ => pathC
        | _ => dirOf b.path.toList ++ pathC
      some { b with
        path := String.mk (normalizePath merged),
        query := query.map String.mk,
        frag := frag.map String.mk }

/-- The WHATWG `new URL(input, base?)` parser (subset, see the section
comment).  Returns `none` exactly where the JS constructor throws. -/
def parseURL (input : String) (base : Option UrlRec) : Option UrlRec :=
  match parseScheme input.toList with
  | some (schemeC, rest) =>
    let scheme := String.mk schemeC
    if isSpecial scheme then
      if scheme = "file" then parseFile rest
      else
        match base with
        | some b =>
          if b.scheme = scheme ∧ ¬ listStarts rest ['/', '/'] then
            parseRelative rest b
          else parseSpecialAuthority scheme rest
        | none => parseSpecialAuthority scheme rest
    else
      if listStarts rest ['/', '/'] then
        let (auth, after) := splitAuthority (rest.drop 2)
        let host := hostOfAuthority auth
        if ¬ hostOk host then none
        else
          let (pathC, frag) := splitFrag after
          let (pathC, query) := splitQuery pathC
          some ⟨scheme, true, String.mk host, String.mk pathC,
            query.map String.mk, frag.map String.mk⟩
      else
        let (pathC, frag) := splitFrag rest
        let (pathC, query) := splitQuery pathC
        some ⟨scheme, false, "", String.mk pathC,
          query.map String.mk, frag.map String.mk⟩
  | none =>
    match base with
    | none => none
    | some b => parseRelative input.toList b

/-- Serialization of a parsed URL (the `href` getter). -/
def serializeUrl (u : UrlRec) : String :=
  u.scheme ++ ":" ++ (if u.hasHost then "//" ++ u.host else "") ++ u.path
    ++ (match u.query with | some q => "?" ++ q | none => "")
    ++ (match u.frag with | some f => "#" ++ f | none => "")

/-- `new URL(input, baseStr).href`: `none` models a thrown `TypeError`.
The base string is parsed first, as in the WHATWG constructor. -/
def urlHref (input : String) (baseStr : String) : Option String :=
  match parseURL baseStr none with
  | none => none
  | some b => (parseURL input (some b)).map serializeUrl

/-- `isValidUrl` from `route.ts`: `new URL(string)` inside try/catch. -/
def isValidUrl (s : String) : Bool := (parseURL s none).isSome

/-! ## Document model (cheerio)

Modelled external capability: the parsed HTML document as queried by the
route through cheerio.  A document is the list of its elements in document
order; each element carries its tag name and attribute list.  `$(sel)`
returns the matching elements in document order; `.attr(n)` on a selection
reads the attribute off the first matched element and is `undefined`
(`none`) when the attribute is missing. -/

structure Element where
  tag : String
  attrs : List (String × String)
deriving DecidableEq

abbrev Document := List Element

/-- Attribute lookup on one element (first occurrence wins, as in HTML). -/
def Element.attr (e : Element) (n : String) : Option String :=
  (e.attrs.find? (fun p => p.1 = n)).map (fun p => p.2)

/-- JS truthiness filter on an optional string: `""` and `undefined` are
falsy. -/
def truthy (o : Option String) : Option String :=
  o.bind (fun v => if v = "" then none else some v)

def truthyAttr (e : Element) (n : String) : Option String := truthy (e.attr n)

/-- `$(sel).attr(n)`: the attribute of the first element matching `p`. -/
def selFirstAttr (d : Document) (p : Element → Bool) (n : String) : Option String :=
  (d.filter p).head?.bind (fun e => e.attr n)

/-- Selector `meta[property^="og:"]`. -/
def isMetaOg (e : Element) : Bool :=
  e.tag = "meta" ∧ (e.attr "property").any (fun v => strStarts v "og:")

/-- Selector `meta[name^="twitter:"]`. -/
def isMetaTwitter (e : Element) : Bool :=
  e.tag = "meta" ∧ (e.attr "name").any (fun v => strStarts v "twitter:")

/-- Selector `meta[name]`. -/
def isMetaNamed (e : Element) : Bool :=
  e.tag = "meta" ∧ (e.attr "name").isSome

/-- Selector `link[rel="r"]` (exact attribute match). -/
def isLinkRel (r : String) (e : Element) : Bool :=
  e.tag = "link" ∧ e.attr "rel" = some r

/-- Selector `link[type="application/rss+xml"], link[type="application/atom+xml"]`
(a comma selector; cheerio returns matches in document order). -/
def isFeedLink (e : Element) : Bool :=
  e.tag = "link" ∧
    (e.attr "type" = some "application/rss+xml" ∨
     e.attr "type" = some "application/atom+xml")

def isHtmlTag (e : Element) : Bool := e.tag = "html"

/-- Selector `meta[http-equiv="content-language"]`. -/
def isMetaContentLanguage (e : Element) : Bool :=
  e.tag = "meta" ∧ e.attr "http-equiv" = some "content-language"

/-! ## JS object model

`additionalMeta` and the result literal are JS objects: string keys,
assignment replaces the value of an existing key in place, a new key is
appended.  Values are strings or string arrays (`feeds`); the result object
additionally holds `undefined` for canonical fields the scraper did not
produce, and `JSON.stringify` (inside `NextResponse.json`) drops
`undefined`-valued keys. -/

inductive JVal where
  | str (s : String)
  | arr (l : List String)
deriving DecidableEq

abbrev JMap := List (String × JVal)

/-- JS object assignment `m[k] = v`. -/
def jsInsert {α : Type} : List (String × α) → String → α → List (String × α)
  | [], k, v => [(k, v)]
  | p :: rest, k, v =>
    if p.1 = k then (k, v) :: rest else p :: jsInsert rest k v

/-- JS object read `m[k]`. -/
def jsGet {α : Type} : List (String × α) → String → Option α
  | [], _ => none
  | p :: rest, k => if p.1 = k then some p.2 else jsGet rest k

/-! ## The route's extraction code (`route.ts` lines 69–157) -/

/-- Output of the external metascraper rule chains for one document
(`await scraper({ html, url })`); abstract here because the rule chains live
in the `metascraper-*` packages, not in this repository. -/
structure MetascraperOutput where
  title : Option String
  description : Option String
  image : Option String
  logo : Option String
  author : Option String
  date : Option String
  publisher : Option String
deriving DecidableEq

/-- One collection pass over `$(sel)`: for each matched element in document
order, if `key(el)` and `content` are both truthy, assign
`additionalMeta[key] = content`. -/
def metaPass (sel : Element → Bool) (key : Element → Option String)
    (m : JMap) (d : Document) : JMap :=
  (d.filter sel).foldl
    (fun m e =>
      match truthy (key e), truthyAttr e "content" with
      | some k, some c => jsInsert m k (JVal.str c)
      | _, _ => m)
    m

/-- The Open Graph pass: `$('meta[property^="og:"]')`, keyed by `property`. -/
def ogPass (m : JMap) (d : Document) : JMap :=
  metaPass isMetaOg (fun e => e.attr "property") m d

/-- The Twitter Card pass: `$('meta[name^="twitter:"]')`, keyed by `name`. -/
def twitterPass (m : JMap) (d : Document) : JMap :=
  metaPass isMetaTwitter (fun e => e.attr "name") m d

/-- The generic pass: `$("meta[name]")`, keyed by `name`. -/
def namePass (m : JMap) (d : Document) : JMap :=
  metaPass isMetaNamed (fun e => e.attr "name") m d

/-- The three meta-tag passes in source order: Open Graph, Twitter, generic. -/
def metaTagPasses (d : Document) : JMap :=
  namePass (twitterPass (ogPass [] d) d) d

/-- `link[rel="canonical"]` href, stored raw (not resolved). -/
def addCanonical (m : JMap) (d : Document) : JMap :=
  match truthy (selFirstAttr d (isLinkRel "canonical") "href") with
  | some h => jsInsert m "canonical" (JVal.str h)
  | none => m

/-- The favicon candidate: `$('link[rel="icon"]').attr("href") ||
$('link[rel="shortcut icon"]').attr("href") ||
$('link[rel="apple-touch-icon"]').attr("href")`, then checked for
truthiness by `if (favicon)`. -/
def faviconRaw (d : Document) : Option String :=
  (truthy (selFirstAttr d (isLinkRel "icon") "href")).orElse (fun _ =>
    (truthy (selFirstAttr d (isLinkRel "shortcut icon") "href")).orElse (fun _ =>
      truthy (selFirstAttr d (isLinkRel "apple-touch-icon") "href")))

/-- `h.startsWith("http") ? h : new URL(h, targetUrl).href`; an exception
from the URL constructor is an `Except.error`. -/
def resolveHref (base h : String) : Except String String :=
  if strStarts h "http" then Except.ok h
  else
    match urlHref h base with
    | some s => Except.ok s
    | none => Except.error "Invalid URL"

def addFavicon (m : JMap) (d : Document) (base : String) : Except String JMap :=
  match faviconRaw d with
  | some f =>
    match resolveHref base f with
    | Except.ok v => Except.ok (jsInsert m "favicon" (JVal.str v))
    | Except.error e => Except.error e
  | none => Except.ok m

/-- `$("html").attr("lang") || $('meta[http-equiv="content-language"]').attr("content")`. -/
def langRaw (d : Document) : Option String :=
  (truthy (selFirstAttr d isHtmlTag "lang")).orElse (fun _ =>
    truthy (selFirstAttr d isMetaContentLanguage "content"))

def addLanguage (m : JMap) (d : Document) : JMap :=
  match langRaw d with
  | some l => jsInsert m "language" (JVal.str l)
  | none => m

/-- The `.each` loop pushing feed URLs: truthy hrefs are pushed after the
startsWith-http/resolve step; a resolution failure throws, aborting the
iteration. -/
def feedsAux (base : String) (acc : List String) : List Element → Except String (List String)
  | [] => Except.ok acc
  | e :: rest =>
    match truthyAttr e "href" with
    | some h =>
      match resolveHref base h with
      | Except.ok r => feedsAux base (acc ++ [r]) rest
      | Except.error er => Except.error er
    | none => feedsAux base acc rest

/-- The feeds array: every feed `link` in document order. -/
def feedsOf (d : Document) (base : String) : Except String (List String) :=
  feedsAux base [] (d.filter isFeedLink)

def addFeeds (m : JMap) (d : Document) (base : String) : Except String JMap :=
  match feedsOf d base with
  | Except.ok fs =>
    Except.ok (if fs.length > 0 then jsInsert m "feeds" (JVal.arr fs) else m)
  | Except.error e => Except.error e

/-- `additionalMeta` after all collection steps, in source order:
meta-tag passes, canonical, favicon, language, feeds.  An exception thrown
by the URL constructor in any step propagates. -/
def collectAdditionalMeta (d : Document) (base : String) : Except String JMap :=
  match addFavicon (addCanonical (metaTagPasses d) d) d base with
  | Except.ok m => addFeeds (addLanguage m d) d base
  | Except.error e => Except.error e

/-- A result object still holding `undefined` (`none`) values. -/
abbrev OMap := List (String × Option JVal)

/-- The head of the result literal (`route.ts` lines 146–154): `url` is the
final fetched URL, the seven canonical fields carry the scraper's output,
`undefined` (`none`) when a field was not produced. -/
def initialResult (targetUrl : String) (md : MetascraperOutput) : OMap :=
  [("url", some (JVal.str targetUrl)),
   ("title", md.title.map JVal.str),
   ("description", md.description.map JVal.str),
   ("image", md.image.map JVal.str),
   ("logo", md.logo.map JVal.str),
   ("author", md.author.map JVal.str),
   ("date", md.date.map JVal.str),
   ("publisher", md.publisher.map JVal.str)]

/-- The result literal (`route.ts` lines 146–157): canonical fields first,
then `...additionalMeta` (assignment in document order), then `extractedAt`. -/
def assembleResult (targetUrl : String) (md : MetascraperOutput)
    (am : JMap) (now : String) : OMap :=
  jsInsert (am.foldl (fun o p => jsInsert o p.1 (some p.2)) (initialResult targetUrl md))
    "extractedAt" (some (JVal.str now))

/-- `JSON.stringify` drops `undefined`-valued keys. -/
def jsonBody (o : OMap) : JMap :=
  o.filterMap (fun p => p.2.map (fun v => (p.1, v)))

/-- The extraction stage: everything after a successful fetch, as a function
of the parsed document, the final URL, the scraper output and the timestamp. -/
def extractStage (d : Document) (base : String) (md : MetascraperOutput)
    (now : String) : Except String JMap :=
  (collectAdditionalMeta d base).map
    (fun am => jsonBody (assembleResult base md am now))

/-! ## The POST handler -/

/-- Outcome of the `fetch` call: final (post-redirect) URL, status, reason
phrase, and the parsed response body. -/
structure FetchResult where
  status : Nat
  statusText : String
  url : String
  doc : Document
deriving DecidableEq

structure ApiResponse where
  status : Nat
  body : JMap
deriving DecidableEq

def errBody (msg : String) : JMap := [("error", JVal.str msg)]

/-- The `POST` handler of `route.ts`.  `reqUrl` is the `url` field of the
request body (`none` when missing); `fetchO` is the network oracle (`none`
models a thrown network error); `md` is the metascraper output for the
fetched document; `now` is the timestamp taken at assembly time. -/
def post (reqUrl : Option String) (fetchO : String → Option FetchResult)
    (md : MetascraperOutput) (now : String) : ApiResponse :=
  match reqUrl with
  | none => ⟨400, errBody "URL is required"⟩
  | some url =>
    if url = "" then ⟨400, errBody "URL is required"⟩
    else if isValidUrl url = false then ⟨400, errBody "Invalid URL format"⟩
    else
      match fetchO url with
      | none => ⟨500, errBody "Failed to extract metadata"⟩
      | some r =>
        if r.status < 200 ∨ 299 < r.status then
          ⟨400, errBody ("Failed to fetch webpage: " ++ toString r.status
            ++ " " ++ r.statusText)⟩
        else
          match extractStage r.doc r.url md now with
          | Except.error _ => ⟨500, errBody "Failed to extract metadata"⟩
          | Except.ok body => ⟨200, body⟩

/-! ## Support definitions for the statements below -/

/-- The key list of a JS object. -/
def jsKeys {α : Type} : List (String × α) → List String
  | [] => []
  | p :: rest => p.1 :: jsKeys rest

/-- The contribution of one element to a meta pass, restricted to key `k`. -/
def passContent (key : Element → Option String) (k : String) (e : Element) :
    Option String :=
  match truthy (key e), truthyAttr e "content" with
  | some k', some c => if k' = k then some c else none
  | _, _ => none

/-- Resolve a list of hrefs in order, propagating the first failure: the
specification-side description of what the feeds loop does to the collected
hrefs. -/
def resolveAll (base : String) : List String → Except String (List String)
  | [] => Except.ok []
  | h :: rest =>
    match resolveHref base h with
    | Except.ok r => (resolveAll base rest).map (fun t => r :: t)
    | Except.error e => Except.error e

/-- The content of the last `meta[name=k]` element (nonempty name, nonempty
content) in document order. -/
def lastNameContent (d : Document) (k : String) : Option String :=
  (d.filterMap (fun e =>
    if isMetaNamed e ∧ truthy (e.attr "name") = some k then truthyAttr e "content"
    else none)).getLast?

/-- Claim-side notion for C8: the content of the last meta element in
document order whose `property` or `name` attribute equals `k` and whose
content is nonempty. -/
def lastDocOccurrence (d : Document) (k : String) : Option String :=
  (d.filterMap (fun e =>
    if e.tag = "meta" ∧ (e.attr "property" = some k ∨ e.attr "name" = some k)
    then truthyAttr e "content" else none)).getLast?

/-- Claim-side notion for C3: the string parses as a URL having both a
scheme and a nonempty authority (host) component. -/
def hasSchemeAndHost (s : String) : Bool :=
  match parseURL s none with
  | some u => u.hasHost && decide (u.host ≠ "")
  | none => false

/-! ## Concrete inputs used in counterexamples and witnesses -/

/-- Scraper output with no field produced. -/
def mdNone : MetascraperOutput := ⟨none, none, none, none, none, none, none⟩

/-- Scraper output whose rule chains found a title. -/
def mdC1 : MetascraperOutput := ⟨some "Canonical", none, none, none, none, none, none⟩

/-- A document carrying an auxiliary `meta[name="title"]` tag. -/
def dC1 : Document := [⟨"meta", [("name", "title"), ("content", "Aux")]⟩]

/-- A document whose favicon href `"//"` cannot be resolved (the URL
constructor throws on it). -/
def dC2 : Document := [⟨"link", [("rel", "icon"), ("href", "//")]⟩]

/-- A fetch oracle returning a 200 response whose body is `dC2`. -/
def fC2 : String → Option FetchResult :=
  fun _ => some ⟨200, "OK", "https://example.com/", dC2⟩

/-- A fetch oracle returning an empty 200 document. -/
def fOkC3 : String → Option FetchResult :=
  fun _ => some ⟨200, "OK", "https://example.com/", []⟩

/-- A fetch oracle returning a 404. -/
def f404 : String → Option FetchResult :=
  fun _ => some ⟨404, "Not Found", "https://example.com/missing", []⟩

/-- A document with a relative favicon, as in the specification's example. -/
def dC6 : Document := [⟨"link", [("rel", "icon"), ("href", "/favicon.ico")]⟩]

/-- A document whose favicon href starts with "http" yet is relative. -/
def dC6b : Document := [⟨"link", [("rel", "icon"), ("href", "httpRel/icon.png")]⟩]

/-- The additional-meta map collected from `dC6`. -/
def amC6 : JMap := [("favicon", JVal.str "https://example.com/favicon.ico")]

/-- Two feed links with relative hrefs plus a duplicate, in document order. -/
def dC7 : Document :=
  [⟨"link", [("type", "application/rss+xml"), ("href", "/a.xml")]⟩,
   ⟨"link", [("type", "application/atom+xml"), ("href", "/b.xml")]⟩,
   ⟨"link", [("type", "application/rss+xml"), ("href", "/a.xml")]⟩]

/-- A feed link whose href starts with "http" yet is relative. -/
def dC7b : Document :=
  [⟨"link", [("type", "application/rss+xml"), ("href", "httpRel/feed.xml")]⟩]

/-- The same meta key contributed through `name` (document position 0) and
through `property` (document position 1). -/
def dC8 : Document :=
  [⟨"meta", [("name", "og:t"), ("content", "B")]⟩,
   ⟨"meta", [("property", "og:t"), ("content", "A")]⟩]

/-- Three same-key generic meta tags; the last one has empty (falsy)
content. -/
def dC8b : Document :=
  [⟨"meta", [("name", "k"), ("content", "first")]⟩,
   ⟨"meta", [("name", "k"), ("content", "second")]⟩,
   ⟨"meta", [("name", "k"), ("content", "")]⟩]

/-- A document trying to shadow `extractedAt` and `url` via meta tags. -/
def dC10 : Document :=
  [⟨"meta", [("name", "extractedAt"), ("content", "evil")]⟩,
   ⟨"meta", [("name", "url"), ("content", "evilurl")]⟩]

/-! ## Lemmas about the JS object model -/

theorem jsGet_jsInsert_self {α : Type} (m : List (String × α)) (k : String) (v : α) :
    jsGet (jsInsert m k v) k = some v := by
  induction m with
  | nil => simp [jsInsert, jsGet]
  | cons p rest ih =>
    by_cases h : p.1 = k
    · simp [jsInsert, jsGet, h]
    · simp [jsInsert, jsGet, h, ih]

theorem jsGet_jsInsert_ne {α : Type} (m : List (String × α)) (k : String) (v : α)
    (k' : String) (h : k' ≠ k) : jsGet (jsInsert m k v) k' = jsGet m k' := by
  induction m with
  | nil => simp [jsInsert, jsGet, Ne.symm h]
  | cons p rest ih =>
    by_cases hp : p.1 = k
    · subst hp
      simp [jsInsert, jsGet, Ne.symm h]
    · simp [jsInsert, jsGet, hp, ih]

theorem jsKeys_jsInsert {α : Type} (m : List (String × α)) (k : String) (v : α) :
    jsKeys (jsInsert m k v) =
      if k ∈ jsKeys m then jsKeys m else jsKeys m ++ [k] := by
  induction m with
  | nil => simp [jsInsert, jsKeys]
  | cons p rest ih =>
    by_cases h : p.1 = k
    · simp [jsInsert, jsKeys, h]
    · have hne : ¬ k = p.1 := fun e => h e.symm
      by_cases hm : k ∈ jsKeys rest
      · simp [jsInsert, jsKeys, h, hne, hm, ih]
      · simp [jsInsert, jsKeys, h, hne, hm, ih]

theorem nodup_jsKeys_jsInsert {α : Type} {m : List (String × α)} {k : String} {v : α}
    (h : (jsKeys m).Nodup) : (jsKeys (jsInsert m k v)).Nodup := by
  rw [jsKeys_jsInsert]
  by_cases hm : k ∈ jsKeys m
  · simpa [hm] using h
  · simp [hm, List.nodup_append, h]

theorem jsGet_eq_none_iff {α : Type} {m : List (String × α)} {k : String} :
    jsGet m k = none ↔ k ∉ jsKeys m := by
  induction m with
  | nil => simp [jsGet, jsKeys]
  | cons p rest ih =>
    by_cases h : p.1 = k
    · simp [jsGet, jsKeys, h]
    · have hne : ¬ k = p.1 := fun e => h e.symm
      simp [jsGet, jsKeys, h, hne, ih]

theorem jsGet_spread_none {o : OMap} {am : JMap} {k : String}
    (h : jsGet am k = none) :
    jsGet (am.foldl (fun o p => jsInsert o p.1 (some p.2)) o) k = jsGet o k := by
  induction am generalizing o with
  | nil => simp
  | cons p rest ih =>
    have h1 : p.1 ≠ k := by
      intro e
      simp [jsGet, e] at h
    have h2 : jsGet rest k = none := by
      simpa [jsGet, h1] using h
    simp only [List.foldl_cons]
    rw [ih h2, jsGet_jsInsert_ne _ _ _ _ (fun e => h1 e.symm)]

theorem jsGet_spread_some {o : OMap} {am : JMap} {k : String} {v : JVal}
    (hn : (jsKeys am).Nodup) (h : jsGet am k = some v) :
    jsGet (am.foldl (fun o p => jsInsert o p.1 (some p.2)) o) k = some (some v) := by
  induction am generalizing o with
  | nil => simp [jsGet] at h
  | cons p rest ih =>
    have hn2 : (jsKeys rest).Nodup := by
      simpa [jsKeys] using (List.nodup_cons.mp (by simpa [jsKeys] using hn)).2
    by_cases hk : p.1 = k
    · have hmem : p.1 ∉ jsKeys rest :=
        (List.nodup_cons.mp (by simpa [jsKeys] using hn)).1
      have hrest : jsGet rest k = none := jsGet_eq_none_iff.mpr (hk ▸ hmem)
      have hv : v = p.2 := by
        simp [jsGet, hk] at h
        exact h.symm
      simp only [List.foldl_cons]
      rw [jsGet_spread_none hrest, hv, ← hk, jsGet_jsInsert_self]
    · have h2 : jsGet rest k = some v := by
        simpa [jsGet, hk] using h
      simp only [List.foldl_cons]
      exact ih hn2 h2

theorem nodup_spread {o : OMap} {am : JMap}
    (h : (jsKeys o).Nodup) :
    (jsKeys (am.foldl (fun o p => jsInsert o p.1 (some p.2)) o)).Nodup := by
  induction am generalizing o with
  | nil => exact h
  | cons p rest ih =>
    simp only [List.foldl_cons]
    exact ih (nodup_jsKeys_jsInsert h)

/-! ## Lemmas about the collection passes -/

theorem metaPass_foldl_get (key : Element → Option String) (k : String)
    (l : List Element) (m : JMap) :
    jsGet (l.foldl
      (fun m e =>
        match truthy (key e), truthyAttr e "content" with
        | some k', some c => jsInsert m k' (JVal.str c)
        | _, _ => m) m) k =
      match (l.filterMap (passContent key k)).getLast? with
      | some c => some (JVal.str c)
      | none => jsGet m k := by
  induction l generalizing m with
  | nil => simp
  | cons e rest ih =>
    cases h1 : truthy (key e) with
    | none =>
      have hpc : passContent key k e = none := by simp [passContent, h1]
      simp only [List.foldl_cons, List.filterMap_cons, h1, hpc]
      exact ih m
    | some k' =>
      cases h2 : truthyAttr e "content" with
      | none =>
        have hpc : passContent key k e = none := by simp [passContent, h1, h2]
        simp only [List.foldl_cons, List.filterMap_cons, h1, h2, hpc]
        exact ih m
      | some c =>
        by_cases hk : k' = k
        · subst hk
          have hpc : passContent key k' e = some c := by simp [passContent, h1, h2]
          simp only [List.foldl_cons, List.filterMap_cons, h1, h2, hpc]
          cases hL : (rest.filterMap (passContent key k')).getLast? with
          | some c' =>
            have hcons : (c :: rest.filterMap (passContent key k')).getLast? = some c' := by
              cases hR : rest.filterMap (passContent key k') with
              | nil => rw [hR] at hL; simp at hL
              | cons x xs =>
                rw [hR] at hL
                rw [List.getLast?_cons_cons, hL]
            simp only [ih, hL, hcons]
          | none =>
            have hR : rest.filterMap (passContent key k') = [] := by
              simpa using hL
            simp [ih, hL, hR, jsGet_jsInsert_self]
        · have hpc : passContent key k e = none := by simp [passContent, h1, h2, hk]
          simp only [List.foldl_cons, List.filterMap_cons, h1, h2, hpc]
          simp only [ih]
          cases hL : (rest.filterMap (passContent key k)).getLast? with
          | some c' => simp
          | none => exact jsGet_jsInsert_ne m k' (JVal.str c) k (fun e => hk e.symm)

theorem metaPass_get (sel : Element → Bool) (key : Element → Option String)
    (m : JMap) (d : Document) (k : String) :
    jsGet (metaPass sel key m d) k =
      match ((d.filter sel).filterMap (passContent key k)).getLast? with
      | some c => some (JVal.str c)
      | none => jsGet m k :=
  metaPass_foldl_get key k (d.filter sel) m

theorem nodup_metaPass (sel : Element → Bool) (key : Element → Option String)
    {m : JMap} (d : Document) (h : (jsKeys m).Nodup) :
    (jsKeys (metaPass sel key m d)).Nodup := by
  unfold metaPass
  generalize d.filter sel = l
  induction l generalizing m with
  | nil => exact h
  | cons e rest ih =>
    simp only [List.foldl_cons]
    cases h1 : truthy (key e) with
    | none =>
      simp only [h1]
      exact ih h
    | some k' =>
      cases h2 : truthyAttr e "content" with
      | none =>
        simp only [h1, h2]
        exact ih h
      | some c =>
        simp only [h1, h2]
        exact ih (nodup_jsKeys_jsInsert h)

theorem jsGet_addCanonical_ne (m : JMap) (d : Document) {k : String}
    (h : k ≠ "canonical") : jsGet (addCanonical m d) k = jsGet m k := by
  unfold addCanonical
  cases truthy (selFirstAttr d (isLinkRel "canonical") "href") with
  | none => rfl
  | some c => exact jsGet_jsInsert_ne m _ _ k h

theorem nodup_addCanonical {m : JMap} (d : Document) (h : (jsKeys m).Nodup) :
    (jsKeys (addCanonical m d)).Nodup := by
  unfold addCanonical
  cases truthy (selFirstAttr d (isLinkRel "canonical") "href") with
  | none => exact h
  | some c => exact nodup_jsKeys_jsInsert h

theorem jsGet_addLanguage_ne (m : JMap) (d : Document) {k : String}
    (h : k ≠ "language") : jsGet (addLanguage m d) k = jsGet m k := by
  unfold addLanguage
  cases langRaw d with
  | none => rfl
  | some c => exact jsGet_jsInsert_ne m _ _ k h

theorem nodup_addLanguage {m : JMap} (d : Document) (h : (jsKeys m).Nodup) :
    (jsKeys (addLanguage m d)).Nodup := by
  unfold addLanguage
  cases langRaw d with
  | none => exact h
  | some c => exact nodup_jsKeys_jsInsert h

theorem addFavicon_ok_cases {m : JMap} {d : Document} {base : String} {m' : JMap}
    (hok : addFavicon m d base = Except.ok m') :
    m' = m ∨ ∃ f v, faviconRaw d = some f ∧ resolveHref base f = Except.ok v ∧
      m' = jsInsert m "favicon" (JVal.str v) := by
  unfold addFavicon at hok
  cases hf : faviconRaw d with
  | none =>
    simp only [hf] at hok
    exact Or.inl (by simpa using hok.symm)
  | some f =>
    simp only [hf] at hok
    cases hr : resolveHref base f with
    | error e => simp only [hr] at hok; cases hok
    | ok v =>
      simp only [hr] at hok
      exact Or.inr ⟨f, v, rfl, hr, by simpa using hok.symm⟩

theorem addFavicon_ok_get_ne {m : JMap} {d : Document} {base : String} {m' : JMap}
    {k : String} (h : k ≠ "favicon") (hok : addFavicon m d base = Except.ok m') :
    jsGet m' k = jsGet m k := by
  rcases addFavicon_ok_cases hok with rfl | ⟨f, v, _, _, rfl⟩
  · rfl
  · exact jsGet_jsInsert_ne m _ _ k h

theorem nodup_addFavicon {m : JMap} {d : Document} {base : String} {m' : JMap}
    (hok : addFavicon m d base = Except.ok m') (h : (jsKeys m).Nodup) :
    (jsKeys m').Nodup := by
  rcases addFavicon_ok_cases hok with rfl | ⟨f, v, _, _, rfl⟩
  · exact h
  · exact nodup_jsKeys_jsInsert h

theorem addFeeds_ok_cases {m : JMap} {d : Document} {base : String} {m' : JMap}
    (hok : addFeeds m d base = Except.ok m') :
    ∃ fs, feedsOf d base = Except.ok fs ∧
      m' = (if fs.length > 0 then jsInsert m "feeds" (JVal.arr fs) else m) := by
  unfold addFeeds at hok
  cases hf : feedsOf d base with
  | error e => simp only [hf] at hok; cases hok
  | ok fs =>
    simp only [hf] at hok
    exact ⟨fs, rfl, by simpa using hok.symm⟩

theorem addFeeds_ok_get_ne {m : JMap} {d : Document} {base : String} {m' : JMap}
    {k : String} (h : k ≠ "feeds") (hok : addFeeds m d base = Except.ok m') :
    jsGet m' k = jsGet m k := by
  rcases addFeeds_ok_cases hok with ⟨fs, _, rfl⟩
  by_cases hl : fs.length > 0
  · rw [if_pos hl]
    exact jsGet_jsInsert_ne m _ _ k h
  · rw [if_neg hl]

theorem nodup_addFeeds {m : JMap} {d : Document} {base : String} {m' : JMap}
    (hok : addFeeds m d base = Except.ok m') (h : (jsKeys m).Nodup) :
    (jsKeys m').Nodup := by
  rcases addFeeds_ok_cases hok with ⟨fs, _, rfl⟩
  by_cases hl : fs.length > 0
  · rw [if_pos hl]
    exact nodup_jsKeys_jsInsert h
  · rwa [if_neg hl]

/-- Decomposition of a successful `collectAdditionalMeta` run. -/
theorem collect_ok_parts {d : Document} {base : String} {am : JMap}
    (h : collectAdditionalMeta d base = Except.ok am) :
    ∃ m2, addFavicon (addCanonical (metaTagPasses d) d) d base = Except.ok m2 ∧
      addFeeds (addLanguage m2 d) d base = Except.ok am := by
  unfold collectAdditionalMeta at h
  cases hf : addFavicon (addCanonical (metaTagPasses d) d) d base with
  | error e => simp only [hf] at h; cases h
  | ok m2 =>
    simp only [hf] at h
    exact ⟨m2, rfl, h⟩

/-- Keys other than the four link-derived ones are decided by the three
meta-tag passes. -/
theorem collect_ok_get_ne {d : Document} {base : String} {am : JMap} {k : String}
    (h1 : k ≠ "canonical") (h2 : k ≠ "favicon") (h3 : k ≠ "language")
    (h4 : k ≠ "feeds") (h : collectAdditionalMeta d base = Except.ok am) :
    jsGet am k = jsGet (metaTagPasses d) k := by
  rcases collect_ok_parts h with ⟨m2, hfav, hfeeds⟩
  rw [addFeeds_ok_get_ne h4 hfeeds, jsGet_addLanguage_ne _ _ h3,
    addFavicon_ok_get_ne h2 hfav, jsGet_addCanonical_ne _ _ h1]

theorem nodup_metaTagPasses (d : Document) : (jsKeys (metaTagPasses d)).Nodup := by
  unfold metaTagPasses namePass twitterPass ogPass
  exact nodup_metaPass _ _ d (nodup_metaPass _ _ d (nodup_metaPass _ _ d (by simp [jsKeys])))

theorem nodup_collect {d : Document} {base : String} {am : JMap}
    (h : collectAdditionalMeta d base = Except.ok am) : (jsKeys am).Nodup := by
  rcases collect_ok_parts h with ⟨m2, hfav, hfeeds⟩
  exact nodup_addFeeds hfeeds
    (nodup_addLanguage _ (nodup_addFavicon hfav (nodup_addCanonical _ (nodup_metaTagPasses d))))

theorem jsonBody_cons_none {p : String × Option JVal} {rest : OMap}
    (hv : p.2 = none) : jsonBody (p :: rest) = jsonBody rest := by
  simp [jsonBody, hv]

theorem jsonBody_cons_some {p : String × Option JVal} {rest : OMap} {v : JVal}
    (hv : p.2 = some v) : jsonBody (p :: rest) = (p.1, v) :: jsonBody rest := by
  simp [jsonBody, hv]

theorem jsKeys_jsonBody_sublist (o : OMap) :
    (jsKeys (jsonBody o)).Sublist (jsKeys o) := by
  induction o with
  | nil => simp [jsonBody, jsKeys]
  | cons p rest ih =>
    cases hv : p.2 with
    | none =>
      rw [jsonBody_cons_none hv]
      exact ih.trans (List.sublist_cons_self p.1 (jsKeys rest))
    | some v =>
      rw [jsonBody_cons_some hv]
      exact ih.cons₂ p.1

theorem jsGet_jsonBody {o : OMap} {k : String} (hn : (jsKeys o).Nodup) :
    jsGet (jsonBody o) k = (jsGet o k).bind id := by
  induction o with
  | nil => simp [jsonBody, jsGet]
  | cons p rest ih =>
    have hn2 : (jsKeys rest).Nodup := (List.nodup_cons.mp (by simpa [jsKeys] using hn)).2
    have hmem : p.1 ∉ jsKeys rest := (List.nodup_cons.mp (by simpa [jsKeys] using hn)).1
    by_cases hk : p.1 = k
    · cases hv : p.2 with
      | none =>
        have hnone : jsGet (jsonBody rest) k = none := by
          rw [jsGet_eq_none_iff]
          intro hin
          exact hmem (hk ▸ (jsKeys_jsonBody_sublist rest).mem hin)
        rw [jsonBody_cons_none hv, hnone]
        simp [jsGet, hk, hv]
      | some v =>
        rw [jsonBody_cons_some hv]
        simp [jsGet, hk, hv]
    · cases hv : p.2 with
      | none =>
        rw [jsonBody_cons_none hv]
        rw [ih hn2]
        simp [jsGet, hk]
      | some v =>
        rw [jsonBody_cons_some hv]
        simp only [jsGet, hk, if_neg hk]
        exact ih hn2

/-! ## Lemmas about result assembly -/

theorem nodup_initialResult (targetUrl : String) (md : MetascraperOutput) :
    (jsKeys (initialResult targetUrl md)).Nodup := by
  simp [initialResult, jsKeys]

theorem assemble_get_extractedAt (targetUrl : String) (md : MetascraperOutput)
    (am : JMap) (now : String) :
    jsGet (assembleResult targetUrl md am now) "extractedAt"
      = some (some (JVal.str now)) :=
  jsGet_jsInsert_self _ _ _

theorem assemble_get_ne (targetUrl : String) (md : MetascraperOutput)
    (am : JMap) (now : String) {k : String} (h : k ≠ "extractedAt") :
    jsGet (assembleResult targetUrl md am now) k
      = jsGet (am.foldl (fun o p => jsInsert o p.1 (some p.2)) (initialResult targetUrl md)) k :=
  jsGet_jsInsert_ne _ _ _ _ h

theorem nodup_assemble (targetUrl : String) (md : MetascraperOutput)
    (am : JMap) (now : String) :
    (jsKeys (assembleResult targetUrl md am now)).Nodup :=
  nodup_jsKeys_jsInsert (nodup_spread (nodup_initialResult _ _))

/-- The final body always reports the assembly timestamp under
`extractedAt`: the key is assigned after the spread of `additionalMeta`. -/
theorem result_get_extractedAt (targetUrl : String) (md : MetascraperOutput)
    (am : JMap) (now : String) :
    jsGet (jsonBody (assembleResult targetUrl md am now)) "extractedAt"
      = some (JVal.str now) := by
  rw [jsGet_jsonBody (nodup_assemble targetUrl md am now), assemble_get_extractedAt]
  rfl

/-- A key present in `additionalMeta` (other than `extractedAt`) survives
into the final body with its `additionalMeta` value: the spread overrides
the canonical fields. -/
theorem result_get_am_some {targetUrl : String} {md : MetascraperOutput}
    {am : JMap} {now : String} {k : String} {v : JVal}
    (hnam : (jsKeys am).Nodup) (hk : k ≠ "extractedAt")
    (h : jsGet am k = some v) :
    jsGet (jsonBody (assembleResult targetUrl md am now)) k = some v := by
  rw [jsGet_jsonBody (nodup_assemble targetUrl md am now),
    assemble_get_ne targetUrl md am now hk, jsGet_spread_some hnam h]
  rfl

/-- A key absent from `additionalMeta` (other than `extractedAt`) falls
back to the canonical-field head of the literal. -/
theorem result_get_am_none {targetUrl : String} {md : MetascraperOutput}
    {am : JMap} {now : String} {k : String}
    (hk : k ≠ "extractedAt") (h : jsGet am k = none) :
    jsGet (jsonBody (assembleResult targetUrl md am now)) k
      = (jsGet (initialResult targetUrl md) k).bind id := by
  rw [jsGet_jsonBody (nodup_assemble targetUrl md am now),
    assemble_get_ne targetUrl md am now hk, jsGet_spread_none h]

/-- Decomposition of a successful extraction stage. -/
theorem extractStage_ok_parts {d : Document} {base : String}
    {md : MetascraperOutput} {now : String} {body : JMap}
    (h : extractStage d base md now = Except.ok body) :
    ∃ am, collectAdditionalMeta d base = Except.ok am ∧
      body = jsonBody (assembleResult base md am now) := by
  unfold extractStage at h
  cases hc : collectAdditionalMeta d base with
  | error e =>
    simp only [hc, Except.map] at h
    cases h
  | ok am =>
    simp only [hc, Except.map] at h
    exact ⟨am, rfl, by injection h with h'; exact h'.symm⟩

theorem extractStage_error_parts {d : Document} {base : String}
    {md : MetascraperOutput} {now : String} {e : String}
    (h : extractStage d base md now = Except.error e) :
    collectAdditionalMeta d base = Except.error e := by
  unfold extractStage at h
  cases hc : collectAdditionalMeta d base with
  | error e' =>
    simp only [hc, Except.map] at h
    cases h
    rfl
  | ok am =>
    simp only [hc, Except.map] at h
    cases h

/-! ## Lemmas about the feeds loop -/

theorem feedsAux_eq (base : String) (acc : List String) (l : List Element) :
    feedsAux base acc l =
      (resolveAll base (l.filterMap (fun e => truthyAttr e "href"))).map
        (fun t => acc ++ t) := by
  induction l generalizing acc with
  | nil => simp [feedsAux, resolveAll, Except.map]
  | cons e rest ih =>
    cases hh : truthyAttr e "href" with
    | none =>
      simp only [feedsAux, hh, List.filterMap_cons]
      exact ih acc
    | some h =>
      cases hr : resolveHref base h with
      | error er =>
        simp [feedsAux, hh, hr, List.filterMap_cons, resolveAll, Except.map]
      | ok r =>
        simp only [feedsAux, hh, hr, List.filterMap_cons, resolveAll]
        rw [ih (acc ++ [r])]
        cases resolveAll base (rest.filterMap (fun e => truthyAttr e "href")) with
        | error e' => simp [Except.map]
        | ok t => simp [Except.map]

theorem feedsOf_eq (d : Document) (base : String) :
    feedsOf d base =
      resolveAll base ((d.filter isFeedLink).filterMap (fun e => truthyAttr e "href")) := by
  rw [feedsOf, feedsAux_eq]
  cases resolveAll base ((d.filter isFeedLink).filterMap (fun e => truthyAttr e "href")) with
  | error e => simp [Except.map]
  | ok t => simp [Except.map]

/-! ## Bridge between the generic pass and `lastNameContent` -/

theorem namePass_filterMap_eq (d : Document) (k : String) :
    (d.filter isMetaNamed).filterMap (passContent (fun e => e.attr "name") k) =
      d.filterMap (fun e =>
        if isMetaNamed e ∧ truthy (e.attr "name") = some k then truthyAttr e "content"
        else none) := by
  induction d with
  | nil => rfl
  | cons e rest ih =>
    by_cases h1 : isMetaNamed e
    · cases h2 : truthy (e.attr "name") with
      | none =>
        have hpc : passContent (fun e => e.attr "name") k e = none := by
          simp [passContent, h2]
        simpa [List.filter_cons, List.filterMap_cons, h1, h2, hpc] using ih
      | some k' =>
        by_cases hk : k' = k
        · subst hk
          cases h3 : truthyAttr e "content" with
          | none =>
            have hpc : passContent (fun e => e.attr "name") k' e = none := by
              simp [passContent, h2, h3]
            simpa [List.filter_cons, List.filterMap_cons, h1, h2, h3, hpc] using ih
          | some c =>
            have hpc : passContent (fun e => e.attr "name") k' e = some c := by
              simp [passContent, h2, h3]
            simpa [List.filter_cons, List.filterMap_cons, h1, h2, h3, hpc] using ih
        · have hpc : passContent (fun e => e.attr "name") k e = none := by
            cases h3 : truthyAttr e "content" <;> simp [passContent, h2, h3, hk]
          simpa [List.filter_cons, List.filterMap_cons, h1, h2, hk, hpc] using ih
    · have hfil : isMetaNamed e = false := by simpa using h1
      simpa [List.filter_cons, List.filterMap_cons, hfil, h1] using ih

/-- The final value the collected mapping assigns to a non-reserved key
that has at least one generic `meta[name]` occurrence: the last truthy
content in document order. -/
theorem metaTagPasses_lastName {d : Document} {k : String} {c : String}
    (h : lastNameContent d k = some c) :
    jsGet (metaTagPasses d) k = some (JVal.str c) := by
  unfold metaTagPasses namePass
  rw [metaPass_get]
  rw [namePass_filterMap_eq]
  unfold lastNameContent at h
  rw [h]

/-- When the favicon candidate exists and its resolve step succeeds, the
collected mapping carries the resolved value under `favicon`. -/
theorem collect_ok_favicon {d : Document} {base : String} {am : JMap}
    {f v : String}
    (hf : faviconRaw d = some f) (hr : resolveHref base f = Except.ok v)
    (hc : collectAdditionalMeta d base = Except.ok am) :
    jsGet am "favicon" = some (JVal.str v) := by
  rcases collect_ok_parts hc with ⟨m2, hfav, hfeeds⟩
  unfold addFavicon at hfav
  simp only [hf, hr] at hfav
  have hm2 : m2 = jsInsert (addCanonical (metaTagPasses d) d) "favicon" (JVal.str v) := by
    injection hfav with h'
    exact h'.symm
  rw [addFeeds_ok_get_ne (by decide) hfeeds, jsGet_addLanguage_ne _ _ (by decide),
    hm2, jsGet_jsInsert_self]

/-! ## Claim theorems -/

/-- C5: for every fetch that completes with a non-2xx HTTP status, the
handler answers with HTTP status 400 (not 500) and an error message
carrying the numeric status code and the reason phrase
(`Failed to fetch webpage: <status> <statusText>`). -/
theorem c5_fetch_failed_status (u : String) (f : String → Option FetchResult)
    (md : MetascraperOutput) (now : String) (r : FetchResult)
    (hu : u ≠ "") (hv : isValidUrl u = true) (hf : f u = some r)
    (hnot2xx : r.status < 200 ∨ 299 < r.status) :
    post (some u) f md now =
      ⟨400, errBody ("Failed to fetch webpage: " ++ toString r.status
        ++ " " ++ r.statusText)⟩ := by
  unfold post
  simp [hu, hv, hf, hnot2xx]

/-- Witness for C5 at a concrete 404 fetch. -/
theorem c5_witness :
    post (some "https://example.com/") f404 mdNone "T" =
      ⟨400, errBody ("Failed to fetch webpage: " ++ toString (404 : Nat)
        ++ " " ++ "Not Found")⟩ :=
  c5_fetch_failed_status "https://example.com/" f404 mdNone "T"
    ⟨404, "Not Found", "https://example.com/missing", []⟩
    (by decide) rfl rfl (by decide)

/-- C9: the extraction stage is deterministic in its inputs: running it
twice on the same parsed document and final URL (with the same scraper
output) fails identically, and on success the two result bodies agree on
every key other than `extractedAt`. -/
theorem c9_extraction_deterministic (d : Document) (base : String)
    (md : MetascraperOutput) (t1 t2 : String) :
    (∀ e, extractStage d base md t1 = Except.error e →
      extractStage d base md t2 = Except.error e) ∧
    (∀ body1 body2 k, extractStage d base md t1 = Except.ok body1 →
      extractStage d base md t2 = Except.ok body2 → k ≠ "extractedAt" →
      jsGet body1 k = jsGet body2 k) := by
  constructor
  · intro e he
    have hcol := extractStage_error_parts he
    unfold extractStage
    rw [hcol]
    rfl
  · intro body1 body2 k h1 h2 hk
    rcases extractStage_ok_parts h1 with ⟨am1, hc1, rfl⟩
    rcases extractStage_ok_parts h2 with ⟨am2, hc2, rfl⟩
    have ham : am1 = am2 := by
      have h := hc1.symm.trans hc2
      injection h
    subst ham
    rw [jsGet_jsonBody (nodup_assemble base md am1 t1),
      jsGet_jsonBody (nodup_assemble base md am1 t2),
      assemble_get_ne base md am1 t1 hk, assemble_get_ne base md am1 t2 hk]

/-- Witness for C9: two runs at different timestamps agree on `url`. -/
theorem c9_witness :
    jsGet [("url", JVal.str "https://example.com/"), ("extractedAt", JVal.str "T1")] "url" =
      jsGet [("url", JVal.str "https://example.com/"), ("extractedAt", JVal.str "T2")] "url" :=
  (c9_extraction_deterministic [] "https://example.com/" mdNone "T1" "T2").2
    _ _ "url" rfl rfl (by decide)

/-- C10: `extractedAt` is assigned after the `additionalMeta` spread, so it
always equals the assembly-time timestamp and can never be shadowed by
document content; in contrast `url`, assigned before the spread, is
shadowed by a same-named meta tag (shown on a concrete document carrying
both a `meta[name="extractedAt"]` and a `meta[name="url"]` tag). -/
theorem c10_extractedAt_not_shadowed :
    (∀ (d : Document) (base : String) (md : MetascraperOutput) (now : String)
      (body : JMap), extractStage d base md now = Except.ok body →
      jsGet body "extractedAt" = some (JVal.str now)) ∧
    (extractStage dC10 "https://example.com/" mdNone "NOW").map
        (fun b => (jsGet b "extractedAt", jsGet b "url"))
      = Except.ok (some (JVal.str "NOW"), some (JVal.str "evilurl")) := by
  constructor
  · intro d base md now body h
    rcases extractStage_ok_parts h with ⟨am, _, rfl⟩
    exact result_get_extractedAt base md am now
  · rfl

/-- Witness for C10 on the shadowing document. -/
theorem c10_witness :
    jsGet [("url", JVal.str "evilurl"), ("extractedAt", JVal.str "NOW")] "extractedAt"
      = some (JVal.str "NOW") :=
  c10_extractedAt_not_shadowed.1 dC10 "https://example.com/" mdNone "NOW" _ rfl

/-- C4: a successful extraction always yields a body with a `url` value and
the `extractedAt` timestamp, and every optional field with no source value
(neither a scraper output nor a collected auxiliary tag) is entirely absent
from the body — never null or an empty string (values only enter the body
through `some`). -/
theorem c4_minimal_result (d : Document) (base : String) (md : MetascraperOutput)
    (now : String) (body am : JMap)
    (he : extractStage d base md now = Except.ok body)
    (hc : collectAdditionalMeta d base = Except.ok am) :
    (∃ v, jsGet body "url" = some v) ∧
    jsGet body "extractedAt" = some (JVal.str now) ∧
    (md.title = none → jsGet am "title" = none → jsGet body "title" = none) ∧
    (md.description = none → jsGet am "description" = none →
      jsGet body "description" = none) ∧
    (md.image = none → jsGet am "image" = none → jsGet body "image" = none) ∧
    (md.logo = none → jsGet am "logo" = none → jsGet body "logo" = none) ∧
    (md.author = none → jsGet am "author" = none → jsGet body "author" = none) ∧
    (md.date = none → jsGet am "date" = none → jsGet body "date" = none) ∧
    (md.publisher = none → jsGet am "publisher" = none →
      jsGet body "publisher" = none) ∧
    (jsGet am "favicon" = none → jsGet body "favicon" = none) ∧
    (jsGet am "canonical" = none → jsGet body "canonical" = none) ∧
    (jsGet am "language" = none → jsGet body "language" = none) ∧
    (jsGet am "feeds" = none → jsGet body "feeds" = none) := by
  rcases extractStage_ok_parts he with ⟨am', hc', rfl⟩
  have ham : am' = am := by
    have h := hc'.symm.trans hc
    injection h
  subst ham
  refine ⟨?_, result_get_extractedAt base md am' now, ?_, ?_, ?_, ?_, ?_, ?_, ?_, ?_, ?_, ?_, ?_⟩
  · cases hu : jsGet am' "url" with
    | some v =>
      exact ⟨v, result_get_am_some (nodup_collect hc') (by decide) hu⟩
    | none =>
      refine ⟨JVal.str base, ?_⟩
      rw [result_get_am_none (by decide) hu]
      rfl
  · intro h1 h2
    rw [result_get_am_none (by decide) h2,
      show jsGet (initialResult base md) "title" = some (md.title.map JVal.str) from rfl, h1]
    rfl
  · intro h1 h2
    rw [result_get_am_none (by decide) h2,
      show jsGet (initialResult base md) "description"
        = some (md.description.map JVal.str) from rfl, h1]
    rfl
  · intro h1 h2
    rw [result_get_am_none (by decide) h2,
      show jsGet (initialResult base md) "image" = some (md.image.map JVal.str) from rfl, h1]
    rfl
  · intro h1 h2
    rw [result_get_am_none (by decide) h2,
      show jsGet (initialResult base md) "logo" = some (md.logo.map JVal.str) from rfl, h1]
    rfl
  · intro h1 h2
    rw [result_get_am_none (by decide) h2,
      show jsGet (initialResult base md) "author" = some (md.author.map JVal.str) from rfl, h1]
    rfl
  · intro h1 h2
    rw [result_get_am_none (by decide) h2,
      show jsGet (initialResult base md) "date" = some (md.date.map JVal.str) from rfl, h1]
    rfl
  · intro h1 h2
    rw [result_get_am_none (by decide) h2,
      show jsGet (initialResult base md) "publisher"
        = some (md.publisher.map JVal.str) from rfl, h1]
    rfl
  · intro h2
    rw [result_get_am_none (by decide) h2]
    rfl
  · intro h2
    rw [result_get_am_none (by decide) h2]
    rfl
  · intro h2
    rw [result_get_am_none (by decide) h2]
    rfl
  · intro h2
    rw [result_get_am_none (by decide) h2]
    rfl

/-- Witness for C4 on the empty document with an empty scraper output. -/
theorem c4_witness :
    (∃ v, jsGet [("url", JVal.str "https://example.com/"),
      ("extractedAt", JVal.str "T")] "url" = some v) ∧
    jsGet [("url", JVal.str "https://example.com/"),
      ("extractedAt", JVal.str "T")] "title" = none := by
  have h := c4_minimal_result [] "https://example.com/" mdNone "T"
    [("url", JVal.str "https://example.com/"), ("extractedAt", JVal.str "T")] [] rfl rfl
  exact ⟨h.1, h.2.2.1 rfl rfl⟩

/-- C1 (amended): in the assembled result, an `additionalMeta` entry
overrides the canonical rule-based field of the same key (the spread comes
after the canonical fields, so the auxiliary raw tag wins when both exist,
and the rule-based value is used only when no auxiliary tag of that key was
collected); no key appears twice in the body. -/
theorem c1_aux_overrides_canonical (d : Document) (base : String)
    (md : MetascraperOutput) (now : String) (body am : JMap) (k : String) (v : JVal)
    (hc : collectAdditionalMeta d base = Except.ok am)
    (he : extractStage d base md now = Except.ok body) :
    (jsKeys body).Nodup ∧
    (k ≠ "extractedAt" → jsGet am k = some v → jsGet body k = some v) ∧
    (jsGet am "title" = none → jsGet body "title" = md.title.map JVal.str) := by
  rcases extractStage_ok_parts he with ⟨am', hc', rfl⟩
  have ham : am' = am := by
    have h := hc'.symm.trans hc
    injection h
  subst ham
  refine ⟨?_, ?_, ?_⟩
  · exact (jsKeys_jsonBody_sublist _).nodup (nodup_assemble base md am' now)
  · intro hk h
    exact result_get_am_some (nodup_collect hc') hk h
  · intro h
    rw [result_get_am_none (by decide) h]
    rfl

/-- Counterexample for C1 as stated: the rule-based `title` is
`"Canonical"`, yet the result's `title` is the auxiliary tag value
`"Aux"` — the canonical rule-based value does not appear. -/
theorem c1_counterexample :
    mdC1.title = some "Canonical" ∧
    (extractStage dC1 "https://example.com/" mdC1 "T").map (fun b => jsGet b "title")
      = Except.ok (some (JVal.str "Aux")) ∧
    JVal.str "Aux" ≠ JVal.str "Canonical" :=
  ⟨rfl, rfl, by decide⟩

/-- Witness for C1 (amended) on the same document. -/
theorem c1_witness :
    jsGet [("url", JVal.str "https://example.com/"), ("title", JVal.str "Aux"),
      ("extractedAt", JVal.str "T")] "title" = some (JVal.str "Aux") :=
  (c1_aux_overrides_canonical dC1 "https://example.com/" mdC1 "T"
    [("url", JVal.str "https://example.com/"), ("title", JVal.str "Aux"),
      ("extractedAt", JVal.str "T")]
    [("title", JVal.str "Aux")] "title" (JVal.str "Aux") rfl rfl).2.1 (by decide) rfl

/-- C2 (amended): a favicon/feed candidate that cannot be resolved is not
dropped silently — the exception thrown by the URL constructor in the
collection step aborts the whole request, which fails with the 500 response
`Failed to extract metadata`.  Image candidates never reach the route's URL
resolution: they live inside the external metascraper whose output `md` the
route consumes as-is, and (second conjunct, for every `md` whatsoever) that
output never makes a request fail — when the collection step succeeds, the
request answers 200 with the assembled body. -/
theorem c2_malformed_candidate_fails_request (u : String)
    (f : String → Option FetchResult) (md : MetascraperOutput) (now : String)
    (r : FetchResult)
    (hu : u ≠ "") (hv : isValidUrl u = true) (hf : f u = some r)
    (h2xx : 200 ≤ r.status ∧ r.status ≤ 299) :
    (∀ e, collectAdditionalMeta r.doc r.url = Except.error e →
      post (some u) f md now = ⟨500, errBody "Failed to extract metadata"⟩) ∧
    (∀ body, extractStage r.doc r.url md now = Except.ok body →
      post (some u) f md now = ⟨200, body⟩) := by
  have hcond : ¬ (r.status < 200 ∨ 299 < r.status) := by omega
  constructor
  · intro e hcol
    have hex : extractStage r.doc r.url md now = Except.error e := by
      unfold extractStage
      rw [hcol]
      rfl
    unfold post
    simp [hu, hv, hf, hcond, hex]
  · intro body hex
    unfold post
    simp [hu, hv, hf, hcond, hex]

/-- Counterexample for C2 as stated: a document whose only favicon link is
the unresolvable href `"//"` makes the request fail with a 500 error
response instead of succeeding with the field absent. -/
theorem c2_counterexample :
    post (some "https://example.com/") fC2 mdNone "T"
      = ⟨500, errBody "Failed to extract metadata"⟩ ∧
    (post (some "https://example.com/") fC2 mdNone "T").status ≠ 200 :=
  ⟨rfl, by decide⟩

/-- Witness for C2 (amended): the malformed favicon document answers 500,
and an empty document (any scraper output consumed as-is) answers 200. -/
theorem c2_witness :
    post (some "https://example.com/") fC2 mdNone "T"
      = ⟨500, errBody "Failed to extract metadata"⟩ ∧
    post (some "https://example.com/") fOkC3 mdNone "T"
      = ⟨200, [("url", JVal.str "https://example.com/"),
          ("extractedAt", JVal.str "T")]⟩ :=
  ⟨(c2_malformed_candidate_fails_request "https://example.com/" fC2 mdNone "T"
      ⟨200, "OK", "https://example.com/", dC2⟩
      (by decide) rfl rfl (by decide)).1 "Invalid URL" rfl,
   (c2_malformed_candidate_fails_request "https://example.com/" fOkC3 mdNone "T"
      ⟨200, "OK", "https://example.com/", []⟩
      (by decide) rfl rfl (by decide)).2 _ rfl⟩

/-- C3 (amended): the validator accepts any string the WHATWG URL parser
accepts — a scheme is required but an authority is not (e.g. `mailto:foo`
passes), so in particular every string with scheme and host is accepted;
for any string the parser rejects, the handler answers a 400 failure before
consulting the network (`URL is required` for the falsy empty string,
`Invalid URL format` otherwise), identically for every fetch oracle. -/
theorem c3_invalid_rejected_before_fetch :
    (∀ s, hasSchemeAndHost s = true → isValidUrl s = true) ∧
    (∀ (s : String) (f g : String → Option FetchResult)
      (md md' : MetascraperOutput) (now now' : String),
      isValidUrl s = false →
      post (some s) f md now =
        (if s = "" then ⟨400, errBody "URL is required"⟩
         else ⟨400, errBody "Invalid URL format"⟩) ∧
      post (some s) f md now = post (some s) g md' now') := by
  constructor
  · intro s h
    unfold hasSchemeAndHost at h
    unfold isValidUrl
    cases hp : parseURL s none with
    | none => rw [hp] at h; cases h
    | some u => rfl
  · intro s f g md md' now now' hv
    by_cases hs : s = ""
    · subst hs
      constructor
      · unfold post
        simp
      · unfold post
        simp
    · have h1 : post (some s) f md now = ⟨400, errBody "Invalid URL format"⟩ := by
        unfold post
        simp [hs, hv]
      have h2 : post (some s) g md' now' = ⟨400, errBody "Invalid URL format"⟩ := by
        unfold post
        simp [hs, hv]
      exact ⟨by rw [if_neg hs]; exact h1, h1.trans h2.symm⟩

/-- Counterexample for C3 as stated: `"mailto:foo"` parses with a scheme
but no authority, yet the validator accepts it and the pipeline proceeds to
the fetch (the response depends on the network oracle and is never the
claimed 400). -/
theorem c3_counterexample :
    isValidUrl "mailto:foo" = true ∧
    hasSchemeAndHost "mailto:foo" = false ∧
    (post (some "mailto:foo") fOkC3 mdNone "T").status = 200 ∧
    (post (some "mailto:foo") (fun _ => none) mdNone "T").status = 500 :=
  ⟨rfl, rfl, rfl, rfl⟩

/-- Witness for C3 (amended) on both named rejected strings: `"not a url"`
and the empty string. -/
theorem c3_witness :
    post (some "not a url") fOkC3 mdNone "T" = ⟨400, errBody "Invalid URL format"⟩ ∧
    post (some "") fOkC3 mdNone "T" = ⟨400, errBody "URL is required"⟩ := by
  constructor
  · have h := (c3_invalid_rejected_before_fetch.2 "not a url" fOkC3 (fun _ => none)
      mdNone mdNone "T" "T" rfl).1
    rw [if_neg (by decide)] at h
    exact h
  · have h := (c3_invalid_rejected_before_fetch.2 "" fOkC3 (fun _ => none)
      mdNone mdNone "T" "T" rfl).1
    rw [if_pos rfl] at h
    exact h

/-- C6 (amended): the favicon candidate is taken from the first of
`link[rel="icon"]`, `link[rel="shortcut icon"]`, `link[rel="apple-touch-icon"]`
in that priority order (first truthy href wins); a candidate starting with
`"http"` is stored verbatim, any other candidate is resolved against the
final fetched URL and the resolved value is stored. -/
theorem c6_favicon_priority_resolution (d : Document) (base : String) (am : JMap)
    (hc : collectAdditionalMeta d base = Except.ok am) :
    (∀ h, truthy (selFirstAttr d (isLinkRel "icon") "href") = some h →
      faviconRaw d = some h) ∧
    (truthy (selFirstAttr d (isLinkRel "icon") "href") = none →
      ∀ h, truthy (selFirstAttr d (isLinkRel "shortcut icon") "href") = some h →
        faviconRaw d = some h) ∧
    (truthy (selFirstAttr d (isLinkRel "icon") "href") = none →
      truthy (selFirstAttr d (isLinkRel "shortcut icon") "href") = none →
      faviconRaw d = truthy (selFirstAttr d (isLinkRel "apple-touch-icon") "href")) ∧
    (∀ h, faviconRaw d = some h → strStarts h "http" = true →
      jsGet am "favicon" = some (JVal.str h)) ∧
    (∀ h r, faviconRaw d = some h → strStarts h "http" = false →
      urlHref h base = some r → jsGet am "favicon" = some (JVal.str r)) := by
  refine ⟨?_, ?_, ?_, ?_, ?_⟩
  · intro h hicon
    simp [faviconRaw, hicon, Option.orElse]
  · intro hicon h hshort
    simp [faviconRaw, hicon, hshort, Option.orElse]
  · intro hicon hshort
    simp [faviconRaw, hicon, hshort, Option.orElse]
  · intro h hf hst
    exact collect_ok_favicon hf (by simp [resolveHref, hst]) hc
  · intro h r hf hst hres
    exact collect_ok_favicon hf (by simp [resolveHref, hst, hres]) hc

/-- Counterexample for C6 as stated: the relative favicon href
`"httpRel/icon.png"` starts with `"http"`, so the code stores it verbatim
instead of resolving it against the final URL as the claim requires
(the resolved value would be `"https://example.com/httpRel/icon.png"`). -/
theorem c6_counterexample :
    (collectAdditionalMeta dC6b "https://example.com/page").map
        (fun m => jsGet m "favicon")
      = Except.ok (some (JVal.str "httpRel/icon.png")) ∧
    isValidUrl "httpRel/icon.png" = false ∧
    urlHref "httpRel/icon.png" "https://example.com/page"
      = some "https://example.com/httpRel/icon.png" ∧
    JVal.str "httpRel/icon.png" ≠ JVal.str "https://example.com/httpRel/icon.png" :=
  ⟨rfl, rfl, rfl, by decide⟩

/-- Witness for C6 (amended): the specification's own example — a relative
`/favicon.ico` on a page fetched from `https://example.com/page` resolves
to `https://example.com/favicon.ico`. -/
theorem c6_witness :
    jsGet amC6 "favicon" = some (JVal.str "https://example.com/favicon.ico") :=
  (c6_favicon_priority_resolution dC6 "https://example.com/page" amC6 rfl).2.2.2.2
    "/favicon.ico" "https://example.com/favicon.ico" rfl rfl rfl

/-- C7 (amended): the feeds list is exactly the truthy hrefs of the
rss/atom feed `link` elements, in document order with duplicates preserved,
each passed through the resolve step (verbatim when it starts with
`"http"`, otherwise resolved against the final URL); when nonempty it is
stored under `feeds`. -/
theorem c7_feeds_document_order (d : Document) (base : String) :
    feedsOf d base =
      resolveAll base ((d.filter isFeedLink).filterMap (fun e => truthyAttr e "href")) ∧
    (∀ am fs, collectAdditionalMeta d base = Except.ok am →
      feedsOf d base = Except.ok fs → fs ≠ [] →
      jsGet am "feeds" = some (JVal.arr fs)) := by
  refine ⟨feedsOf_eq d base, ?_⟩
  intro am fs hc hfs hne
  rcases collect_ok_parts hc with ⟨m2, hfav, hfeeds⟩
  rcases addFeeds_ok_cases hfeeds with ⟨fs', hfs', ham⟩
  have heq : fs' = fs := by
    have h := hfs'.symm.trans hfs
    injection h
  subst heq
  have hlen : fs'.length > 0 := List.length_pos.mpr hne
  rw [ham, if_pos hlen, jsGet_jsInsert_self]

/-- Counterexample for C7 as stated: the feed href `"httpRel/feed.xml"`
lands in the feeds list verbatim, a relative (non-absolute) value, contrary
to the claim that no feed value in the result is relative. -/
theorem c7_counterexample :
    feedsOf dC7b "https://example.com/page" = Except.ok ["httpRel/feed.xml"] ∧
    isValidUrl "httpRel/feed.xml" = false :=
  ⟨rfl, rfl⟩

/-- Witness for C7 (amended) on two relative feed links plus a duplicate:
document order and the duplicate are preserved, relative hrefs resolved. -/
theorem c7_witness :
    jsGet [("feeds", JVal.arr ["https://example.com/a.xml",
      "https://example.com/b.xml", "https://example.com/a.xml"])] "feeds"
      = some (JVal.arr ["https://example.com/a.xml", "https://example.com/b.xml",
        "https://example.com/a.xml"]) :=
  (c7_feeds_document_order dC7 "https://example.com/page").2
    [("feeds", JVal.arr ["https://example.com/a.xml", "https://example.com/b.xml",
      "https://example.com/a.xml"])]
    ["https://example.com/a.xml", "https://example.com/b.xml",
      "https://example.com/a.xml"]
    rfl rfl (by decide)

/-- C8 (amended): within the auxiliary-tag mapping, for any key other than
the reserved `canonical`/`favicon`/`language`/`feeds`, if the key has at
least one generic `meta[name]` occurrence with nonempty content, the
recorded value is the content of the last such occurrence in document order
(the generic pass runs last and overwrites earlier writes, including
`property`-keyed Open Graph writes, so document order governs only within
the name-keyed occurrences). -/
theorem c8_last_name_tag_wins (d : Document) (base : String) (am : JMap)
    (k c : String)
    (h1 : k ≠ "canonical") (h2 : k ≠ "favicon") (h3 : k ≠ "language")
    (h4 : k ≠ "feeds")
    (hc : collectAdditionalMeta d base = Except.ok am)
    (hl : lastNameContent d k = some c) :
    jsGet am k = some (JVal.str c) := by
  rw [collect_ok_get_ne h1 h2 h3 h4 hc]
  exact metaTagPasses_lastName hl

/-- Counterexample for C8 as stated: the key `og:t` occurs twice — via
`name` at document position 0 (content `"B"`) and via `property` at
position 1 (content `"A"`).  The occurrence appearing last in document
order carries `"A"`, but the mapping records `"B"`, because the name-keyed
pass runs after the property-keyed pass. -/
theorem c8_counterexample :
    (collectAdditionalMeta dC8 "https://example.com/").map (fun am => jsGet am "og:t")
      = Except.ok (some (JVal.str "B")) ∧
    lastDocOccurrence dC8 "og:t" = some "A" ∧
    JVal.str "B" ≠ JVal.str "A" :=
  ⟨rfl, rfl, by decide⟩

/-- Witness for C8 (amended) on three same-key generic meta tags: the last
truthy occurrence (`"second"`; the final tag has empty content) wins. -/
theorem c8_witness :
    jsGet [("k", JVal.str "second")] "k" = some (JVal.str "second") :=
  c8_last_name_tag_wins dC8b "https://example.com/" [("k", JVal.str "second")]
    "k" "second" (by decide) (by decide) (by decide) (by decide) rfl rfl

end MetaTag
